import Mathlib

/-!
# Verification of the shtrih-kkt reconciliation and polling core

Shallow embedding of the Go program `shtrih-kkt` (files `main.go`,
`pkg/shtrih/driver.go`).  Go maps are modelled as association lists with
distinct keys; JSON scalar values as the closed variant `Val`; the file
system as lists of directory entries (`FsTree`); fallible Go operations
as `Option`/`Except`.  Definitions are translated from the source; the
theorems at the end of the file settle the specification claims.
-/

/-- A JSON scalar value as it appears in the generic field maps
(`map[string]interface{}`) the program works with: strings, booleans and
numbers. -/
inductive Val where
  | str (s : String)
  | bool (b : Bool)
  | num (n : Int)
deriving DecidableEq, Repr

/-- A Go `map[string]interface{}` modelled as an association list.
Go maps never hold duplicate keys; operations below preserve that. -/
abbrev FieldMap := List (String × Val)

/-- Map update `m[k] = v`: replace the binding of `k` if present,
otherwise append a fresh binding. -/
def insertA (m : FieldMap) (k : String) (v : Val) : FieldMap :=
  match m with
  | [] => [(k, v)]
  | (k', v') :: rest => if k' = k then (k, v) :: rest else (k', v') :: insertA rest k v

/-- Map lookup `m[k]` (first binding wins; on duplicate-free lists this
is the unique binding). -/
def lookupA (m : FieldMap) (k : String) : Option Val :=
  match m with
  | [] => none
  | (k', v) :: rest => if k' = k then some v else lookupA rest k

/-- Last binding of `k` in `m`, the value a left-to-right sequence of
map assignments leaves behind. -/
def lookupLast (m : FieldMap) (k : String) : Option Val :=
  match m with
  | [] => none
  | (k', v) :: rest =>
    match lookupLast rest k with
    | some v'' => some v''
    | none => if k' = k then some v else none

/-- Key-presence test `_, ok := m[k]`. -/
def hasKey (m : FieldMap) (k : String) : Bool :=
  (lookupA m k).isSome

/-- The donor-copy loop
`for key, value := range wsData { finalMap[key] = value }` of `saveNewMergedInfo`, started from an accumulator. -/
def copyLoop (acc : FieldMap) (src : FieldMap) : FieldMap :=
  src.foldl (fun a kv => insertA a kv.1 kv.2) acc

/-- One iteration of the overlay loop of `saveNewMergedInfo` (main.go:405-412):
`if s, ok := value.(string); ok && s == "" { continue }; finalMap[key] = value`.
Only a fresh value that is a string *and* equals the empty string is skipped. -/
def overlayStep (acc : FieldMap) (kv : String × Val) : FieldMap :=
  match kv.2 with
  | Val.str s => if s = "" then acc else insertA acc kv.1 kv.2
  | _ => insertA acc kv.1 kv.2

/-- The overlay loop `for key, value := range kktMap { ... }` of
`saveNewMergedInfo`, run over the fresh-record map `l` on top of `acc`. -/
def overlayLoop (acc : FieldMap) (l : FieldMap) : FieldMap :=
  l.foldl overlayStep acc

/-- The value (if any) that the overlay loop leaves at key `k` after
processing `l`: the last binding of `k` in `l` that is not a skipped
empty string. -/
def overlayValue (l : FieldMap) (k : String) : Option Val :=
  match l with
  | [] => none
  | (k', v) :: rest =>
    match overlayValue rest k with
    | some v'' => some v''
    | none =>
      if k' = k then
        match v with
        | Val.str s => if s = "" then none else some v
        | _ => some v
      else none

/-- Go struct `shtrih.FiscalInfo` (pkg/shtrih/driver.go): the fixed-shape
fiscal record fetched from one device. -/
structure FiscalInfo where
  modelName        : String
  serialNumber     : String
  rnm              : String
  organizationName : String
  address          : String
  inn              : String
  fnSerial         : String
  registrationDate : String
  fnEndDate        : String
  ofdName          : String
  softwareDate     : String
  ffdVersion       : String
  fnExecution      : String
  installedDriver  : String
  attributeExcise  : Bool
  attributeMarked  : Bool
  subscriptionInfo : String
deriving DecidableEq, Repr

/-- The generic field map obtained in `saveNewMergedInfo` by marshalling a
`FiscalInfo` to JSON and unmarshalling it into `map[string]interface{}`.
Keys are the struct's JSON tags; `licenses` carries `omitempty`, so it is
absent when `SubscriptionInfo` is the empty string. -/
def fiscalInfoToMap (i : FiscalInfo) : FieldMap :=
  [("modelName", Val.str i.modelName),
   ("serialNumber", Val.str i.serialNumber),
   ("RNM", Val.str i.rnm),
   ("organizationName", Val.str i.organizationName),
   ("address", Val.str i.address),
   ("INN", Val.str i.inn),
   ("fn_serial", Val.str i.fnSerial),
   ("datetime_reg", Val.str i.registrationDate),
   ("dateTime_end", Val.str i.fnEndDate),
   ("ofdName", Val.str i.ofdName),
   ("bootVersion", Val.str i.softwareDate),
   ("ffdVersion", Val.str i.ffdVersion),
   ("fnExecution", Val.str i.fnExecution),
   ("installed_driver", Val.str i.installedDriver),
   ("attribute_excise", Val.bool i.attributeExcise),
   ("attribute_marked", Val.bool i.attributeMarked)]
  ++ (if i.subscriptionInfo = "" then [] else [("licenses", Val.str i.subscriptionInfo)])

/-- Function `saveNewMergedInfo` (main.go:390-435), the pure merge it computes:
copy the donor map `wsData` into a fresh `finalMap`, overlay the fresh
record's map skipping empty strings, then force both timestamp fields to
the current wall-clock string `t`.  (Directory creation, JSON encoding
and the file write are I/O and carry no further data logic.) -/
def saveNewMergedInfoMap (kktInfo : FiscalInfo) (wsData : FieldMap) (t : String) :
    FieldMap :=
  let kktMap := fiscalInfoToMap kktInfo
  let finalMap : FieldMap := copyLoop [] wsData
  let finalMap := overlayLoop finalMap kktMap
  let finalMap := insertA finalMap "current_time" (Val.str t)
  insertA finalMap "v_time" (Val.str t)

/-- Function `saveNewMergedInfo` viewed together with the donor map it leaves
behind: the function body assigns only into `finalMap` (it iterates
`wsData` read-only), so the donor map component is returned unchanged. -/
def saveNewMergedInfoFull (kktInfo : FiscalInfo) (wsData : FieldMap) (t : String) :
    FieldMap × FieldMap :=
  (saveNewMergedInfoMap kktInfo wsData t, wsData)

/-- File name `fmt.Sprintf("%s.json", kktInfo.SerialNumber)` (main.go:246). -/
def fileNameOf (i : FiscalInfo) : String :=
  i.serialNumber ++ ".json"

/-- The merge-and-persist loop of `processDevices` (main.go:243-267):
each polled device is merged against the donor map and written to its
own file; the donor map is threaded through the iterations so that any
mutation of it by `saveNewMergedInfo` would be visible to later devices. -/
def mergeLoop (devices : List FiscalInfo) (wsData : FieldMap) (t : String) :
    List (String × FieldMap) × FieldMap :=
  match devices with
  | [] => ([], wsData)
  | d :: rest =>
    let r := saveNewMergedInfoFull d wsData t
    let tail := mergeLoop rest r.2 t
    ((fileNameOf d, r.1) :: tail.1, tail.2)

/-- A node of the output directory as the OS reports it: a plain file
with its (parsed) JSON content, or a subdirectory with its own entries.
`none` content stands for an unreadable or unparseable file. -/
inductive FsTree where
  | file (name : String) (content : Option FieldMap)
  | dir (name : String) (children : List FsTree)

/-- Go's `filepath.Ext`: the suffix of the name beginning at the final dot,
or the empty string when the name has no dot. -/
def extOf (name : String) : String :=
  let rev := name.toList.reverse
  if rev.contains '.' then ⟨'.' :: (rev.takeWhile (fun c => c ≠ '.')).reverse⟩ else ""

/-- Go's `strings.TrimSuffix`. -/
def trimSuffix (s suffix : String) : String :=
  if suffix.toList.isSuffixOf s.toList then
    ⟨s.toList.take (s.toList.length - suffix.toList.length)⟩
  else s

/-- The `^[0-9]+$` regular expression of `cleanupDateDirectory`: at
least one character, and every character a decimal digit. -/
def isNumericStr (s : String) : Bool :=
  !s.toList.isEmpty && s.toList.all (fun c => c.isDigit)

/-- The base names `cleanupDateDirectory` (main.go:343-386) deletes from
one directory listing: directories and non-`.json` files are skipped,
and a `.json` file is deleted exactly when its base name (extension
stripped) fails the all-digits test. -/
def cleanupRemoved (entries : List FsTree) : List String :=
  entries.filterMap fun e =>
    match e with
    | FsTree.dir _ _ => none
    | FsTree.file name _ =>
      if extOf name ≠ ".json" then none
      else if isNumericStr (trimSuffix name (extOf name)) then none
      else some name

/-- Function `cleanupDateDirectory` on the result of `os.ReadDir(outputDir)`:
a missing directory (`none`) is not an error and removes nothing. -/
def cleanupDateDirectory (dir : Option (List FsTree)) : List String :=
  match dir with
  | none => []
  | some entries => cleanupRemoved entries

/-- The output directory after the cleanup pass: exactly the entries
whose deletion `cleanupDateDirectory` does not attempt survive. -/
def afterCleanup (entries : List FsTree) : List FsTree :=
  entries.filter fun e =>
    match e with
    | FsTree.dir _ _ => true
    | FsTree.file name _ =>
      !(decide (extOf name = ".json") && !isNumericStr (trimSuffix name (extOf name)))

/-- The scan loop of `findSourceWorkstationData` (main.go:279-338) with
its `firstCandidate` accumulator: skip directories, non-`.json` entries
and unreadable/unparseable files; skip files without `hostname`; return
the first file that has `hostname` but no `modelName` immediately;
remember only the first file that has both. -/
def findSourceLoop (entries : List FsTree) (firstCandidate : Option FieldMap) :
    Option FieldMap :=
  match entries with
  | [] => firstCandidate
  | FsTree.dir _ _ :: rest => findSourceLoop rest firstCandidate
  | FsTree.file name c :: rest =>
    if extOf name ≠ ".json" then findSourceLoop rest firstCandidate
    else
      match c with
      | none => findSourceLoop rest firstCandidate
      | some content =>
        if !hasKey content "hostname" then findSourceLoop rest firstCandidate
        else if !hasKey content "modelName" then some content
        else
          match firstCandidate with
          | none => findSourceLoop rest (some content)
          | some fc => findSourceLoop rest (some fc)

/-- Function `findSourceWorkstationData`: scan the directory listing with an
empty `firstCandidate`; `none` is the distinguished "no donor found". -/
def findSourceWorkstationData (entries : List FsTree) : Option FieldMap :=
  findSourceLoop entries none

/-- The donor choice of `processDevices` (main.go:250-258): the resolved
donor map if one was found, else the minimal map holding only the local
machine's hostname. -/
def wsDataToUse (donor : Option FieldMap) (localHostname : String) : FieldMap :=
  match donor with
  | some m => m
  | none => [("hostname", Val.str localHostname)]

/-- The file-handling prefix of `processDevices` (main.go:239-241): the
donor scan runs on the directory listing first, the cleanup pass runs on
the same listing afterwards and yields the post-cleanup directory. -/
def filePhase (entries : List FsTree) : Option FieldMap × List FsTree :=
  let donor := findSourceWorkstationData entries
  let cleaned := afterCleanup entries
  (donor, cleaned)

/-- Go struct `shtrih.Config` (pkg/shtrih/driver.go): one connection
descriptor. -/
structure Config where
  connectionType : Int
  ipAddress      : String
  tcpPort        : Int
  comName        : String
  comNumber      : Int
  baudRate       : Int
  password       : Int
deriving DecidableEq, Repr

/-- Go struct `PolledDevice` (main.go): a descriptor paired with its fetched
fiscal record. -/
structure PolledDevice where
  config : Config
  info   : FiscalInfo
deriving DecidableEq, Repr

/-- What one driver session does when `processDevices` polls it: whether
`Connect` returns an error, whether `GetFiscalInfo` returns an error,
and the record pointer it returns (a `nil` pointer is `none`). -/
structure PollBehavior where
  connectErr : Bool
  fetchErr   : Bool
  fetchInfo  : Option FiscalInfo
deriving DecidableEq, Repr

/-- One iteration of the polling loop of `processDevices` (main.go:206-230):
the accepted device (if any) and whether `Disconnect` was attempted.
`Disconnect` is called immediately after `GetFiscalInfo`, before any error
check, so it is attempted exactly when `Connect` succeeded. -/
def pollOneFull (c : Config) (b : PollBehavior) : Option PolledDevice × Bool :=
  if b.connectErr then (none, false)
  else
    -- info, err := driver.GetFiscalInfo(); driver.Disconnect()
    if b.fetchErr then (none, true)
    else
      match b.fetchInfo with
      | none => (none, true)
      | some info =>
        if info.serialNumber = "" then (none, true)
        else (some { config := c, info := info }, true)

/-- The device accepted (or not) from one descriptor. -/
def pollOne (c : Config) (b : PollBehavior) : Option PolledDevice :=
  (pollOneFull c b).1

/-- One iteration of the polling loop:
`polledDevices = append(polledDevices, ...)` when the device is
accepted, no change when it is skipped. -/
def pollStep (acc : List PolledDevice) (cb : Config × PollBehavior) :
    List PolledDevice :=
  match pollOne cb.1 cb.2 with
  | some pd => acc ++ [pd]
  | none => acc

/-- The polling loop of `processDevices` over a batch of descriptors,
accumulating `polledDevices` in order. -/
def pollDevices (batch : List (Config × PollBehavior)) : List PolledDevice :=
  batch.foldl pollStep []

/-- Go struct `ConnectionSettings` (main.go): one human-editable connection block
of `connect.json`. -/
structure ConnectionSettings where
  typeConnect : Int
  comPort     : String
  comBaudrate : String
  ip          : String
  ipPort      : String
deriving DecidableEq, Repr

/-- Go string slicing `s[i:]`: panics (models as `Except.error`) when
`i` exceeds the byte length of `s`. -/
def goSliceFrom (s : String) (i : Nat) : Except Unit String :=
  if i ≤ s.toList.length then Except.ok ⟨s.toList.drop i⟩ else Except.error ()

/-- Go's `strconv.Atoi`: an optional sign followed by at least one decimal
digit; anything else is an error (`none`). -/
def atoi (s : String) : Option Int :=
  let chars := s.toList
  let core :=
    match chars with
    | '+' :: rest => some (rest, (1 : Int))
    | '-' :: rest => some (rest, (-1 : Int))
    | rest => some (rest, (1 : Int))
  match core with
  | some (digits, sign) =>
    if digits.isEmpty ∨ ¬digits.all (fun c => c.isDigit) then none
    else some (sign * (digits.foldl (fun acc c => acc * 10 + (c.toNat - '0'.toNat)) 0 : Nat))
  | none => none

/-- The `baudRateMap` literal of `convertSettingsToConfigs`. -/
def baudRateLookup (s : String) : Option Int :=
  if s = "115200" then some 6
  else if s = "57600" then some 5
  else if s = "38400" then some 4
  else if s = "19200" then some 3
  else if s = "9600" then some 2
  else if s = "4800" then some 1
  else none

/-- Function `convertSettingsToConfigs` (main.go:502-539).  A serial entry reads
`s.ComPort[3:]` before validating anything, so a `com_port` shorter than
three bytes raises a Go slice-bounds panic, modelled as `Except.error`;
all other invalid entries are logged and skipped. -/
def convertSettingsToConfigs (settings : List ConnectionSettings) :
    Except Unit (List Config) :=
  match settings with
  | [] => Except.ok []
  | s :: rest =>
    if s.typeConnect = 0 then
      match goSliceFrom s.comPort 3 with
      | Except.error _ => Except.error ()   -- panic: slice bounds out of range
      | Except.ok tail =>
        match atoi tail with
        | none => convertSettingsToConfigs rest
        | some comNum =>
          match baudRateLookup s.comBaudrate with
          | none => convertSettingsToConfigs rest
          | some br =>
            (convertSettingsToConfigs rest).map
              (fun cs =>
                { connectionType := 0, ipAddress := "", tcpPort := 0,
                  comName := s.comPort, comNumber := comNum, baudRate := br,
                  password := 30 } :: cs)
    else if s.typeConnect = 6 then
      match atoi s.ipPort with
      | none => convertSettingsToConfigs rest
      | some port =>
        (convertSettingsToConfigs rest).map
          (fun cs =>
            { connectionType := 6, ipAddress := s.ip, tcpPort := port,
              comName := "", comNumber := 0, baudRate := 0,
              password := 30 } :: cs)
    else convertSettingsToConfigs rest

/-- A donor map the spec calls *ideal*: has `hostname`, lacks `modelName`. -/
def isIdealMap (m : FieldMap) : Bool :=
  hasKey m "hostname" && !hasKey m "modelName"

/-- A donor map the spec calls a *candidate*: has both `hostname` and
`modelName`. -/
def isCandidateMap (m : FieldMap) : Bool :=
  hasKey m "hostname" && hasKey m "modelName"

/-- A directory entry the donor scan would accept as an ideal donor:
a readable, parseable `.json` file whose map is ideal. -/
def isIdealEntry (e : FsTree) : Bool :=
  match e with
  | FsTree.file name (some m) => decide (extOf name = ".json") && isIdealMap m
  | _ => false

/-- A directory entry the donor scan would record as a candidate donor. -/
def isCandidateEntry (e : FsTree) : Bool :=
  match e with
  | FsTree.file name (some m) => decide (extOf name = ".json") && isCandidateMap m
  | _ => false

/-- A directory entry whose parsed map contains `hostname` (the scan
ignores every other entry). -/
def hasHostnameEntry (e : FsTree) : Bool :=
  match e with
  | FsTree.file name (some m) => decide (extOf name = ".json") && hasKey m "hostname"
  | _ => false

/-- The content of the first candidate entry of a listing, the value the
spec says the scan falls back to when no ideal donor exists. -/
def firstCandidateContent : List FsTree → Option FieldMap
  | [] => none
  | FsTree.file name (some m) :: rest =>
    if extOf name = ".json" ∧ isCandidateMap m = true then some m
    else firstCandidateContent rest
  | _ :: rest => firstCandidateContent rest

/-- Modelled from the spec claim C5 ("subdirectories are recursed into,
with the same deletion rule applied to .json files inside them"): the
relative paths a *recursive* cleanup would delete.  Compared against the
source's `cleanupRemoved`, which does not recurse. -/
def cleanupRemovedRecSpec : List FsTree → List String
  | [] => []
  | FsTree.dir d children :: rest =>
    (cleanupRemovedRecSpec children).map (fun p => d ++ "/" ++ p)
      ++ cleanupRemovedRecSpec rest
  | FsTree.file name _ :: rest =>
    (if extOf name = ".json" ∧ ¬isNumericStr (trimSuffix name (extOf name)) then [name]
     else []) ++ cleanupRemovedRecSpec rest

/-- A concrete fiscal record as the poller accepts it (non-empty serial
number, empty `address`, both boolean flags false, no licence text). -/
def sampleInfo : FiscalInfo :=
  { modelName := "SHTRIH-M-01F", serialNumber := "123",
    rnm := "0009876543210987", organizationName := "Org",
    address := "", inn := "7701234567", fnSerial := "996044",
    registrationDate := "2024-01-01 10:00:00",
    fnEndDate := "2025-01-01 10:00:00", ofdName := "OFD",
    softwareDate := "2023-05-01", ffdVersion := "120",
    fnExecution := "FN15", installedDriver := "5.16.0.1",
    attributeExcise := false, attributeMarked := false,
    subscriptionInfo := "" }

/-- A concrete donor map carrying a foreign serial number, a value for
the empty fresh field `address`, and conflicting boolean flags. -/
def sampleDonor : FieldMap :=
  [("hostname", Val.str "DONOR-PC"), ("serialNumber", Val.str "999"),
   ("address", Val.str "Donor street"), ("attribute_excise", Val.bool true),
   ("attribute_marked", Val.bool true)]

/-- A concrete wall-clock timestamp string. -/
def sampleTime : String := "2026-10-11 12:00:00"

/-- A concrete network connection descriptor. -/
def sampleConfig : Config :=
  { connectionType := 6, ipAddress := "192.168.137.111", tcpPort := 7778,
    comName := "", comNumber := 0, baudRate := 0, password := 30 }

/-- A fully successful driver session returning `sampleInfo`. -/
def sampleBehavior : PollBehavior :=
  { connectErr := false, fetchErr := false, fetchInfo := some sampleInfo }

/-- The polled device `processDevices` builds from `sampleConfig` and
`sampleBehavior`. -/
def samplePolled : PolledDevice :=
  { config := sampleConfig, info := sampleInfo }

/-- A concrete output-directory listing: one canonical file, one donor
file, one non-json file, one subdirectory holding a stray json file. -/
def sampleDirListing : List FsTree :=
  [FsTree.file "999.json" (some [("serialNumber", Val.str "999")]),
   FsTree.file "donor.json" (some [("hostname", Val.str "DONOR-PC")]),
   FsTree.file "readme.txt" none,
   FsTree.dir "sub" [FsTree.file "junk.json" none]]

/-- A listing in which a candidate donor precedes an ideal donor. -/
def donorScanListing : List FsTree :=
  [FsTree.file "cand.json" (some [("hostname", Val.str "PC-1"), ("modelName", Val.str "X")]),
   FsTree.file "ideal.json" (some [("hostname", Val.str "PC-2")])]

/-- A listing containing only candidate donors. -/
def candOnlyListing : List FsTree :=
  [FsTree.file "a.json" (some [("hostname", Val.str "PC-3"), ("modelName", Val.str "Y")]),
   FsTree.file "b.json" (some [("hostname", Val.str "PC-4"), ("modelName", Val.str "Z")])]

/-- A listing in which no file carries a `hostname` field. -/
def noHostListing : List FsTree :=
  [FsTree.file "x.json" (some [("serialNumber", Val.str "1")]),
   FsTree.file "y.txt" none]

theorem lookupA_insertA_self (m : FieldMap) (k : String) (v : Val) :
    lookupA (insertA m k v) k = some v := by
  induction m with
  | nil => simp [insertA, lookupA]
  | cons p rest ih =>
    obtain ⟨k', v'⟩ := p
    by_cases h : k' = k <;> simp [insertA, lookupA, h, ih]

theorem lookupA_insertA_ne (m : FieldMap) (k k' : String) (v : Val) (h : k' ≠ k) :
    lookupA (insertA m k v) k' = lookupA m k' := by
  have h' : ¬(k = k') := fun hh => h hh.symm
  induction m with
  | nil => simp [insertA, lookupA, h']
  | cons p rest ih =>
    obtain ⟨k₀, v₀⟩ := p
    simp only [insertA]
    by_cases h₀ : k₀ = k
    · have h₀' : ¬(k₀ = k') := by rw [h₀]; exact h'
      rw [if_pos h₀]
      simp only [lookupA]
      rw [if_neg h', if_neg h₀']
    · rw [if_neg h₀]
      simp only [lookupA]
      by_cases h₁ : k₀ = k'
      · rw [if_pos h₁, if_pos h₁]
      · rw [if_neg h₁, if_neg h₁]
        exact ih

theorem lookupA_copyLoop (src : FieldMap) (acc : FieldMap) (k : String) :
    lookupA (copyLoop acc src) k =
      match lookupLast src k with
      | some v => some v
      | none => lookupA acc k := by
  induction src generalizing acc with
  | nil => simp [copyLoop, lookupLast]
  | cons p rest ih =>
    obtain ⟨k₀, v₀⟩ := p
    show lookupA (copyLoop (insertA acc k₀ v₀) rest) k = _
    rw [ih]
    cases hrest : lookupLast rest k with
    | some v'' => simp [lookupLast, hrest]
    | none =>
      by_cases hk : k₀ = k
      · subst hk
        simp [lookupLast, hrest, lookupA_insertA_self]
      · simp [lookupLast, hrest, hk, lookupA_insertA_ne acc k₀ k v₀ (fun hh => hk hh.symm)]

theorem lookupLast_eq_none_of_not_mem (m : FieldMap) (k : String)
    (h : k ∉ m.map Prod.fst) : lookupLast m k = none := by
  induction m with
  | nil => rfl
  | cons p rest ih =>
    obtain ⟨k₀, v₀⟩ := p
    simp only [List.map_cons, List.mem_cons, not_or] at h
    have hne : ¬(k₀ = k) := fun hh => h.1 hh.symm
    simp [lookupLast, ih h.2, hne]

theorem lookupLast_eq_lookupA_of_nodup (m : FieldMap) (hnd : (m.map Prod.fst).Nodup)
    (k : String) : lookupLast m k = lookupA m k := by
  induction m with
  | nil => rfl
  | cons p rest ih =>
    obtain ⟨k₀, v₀⟩ := p
    simp only [List.map_cons, List.nodup_cons] at hnd
    by_cases hk : k₀ = k
    · have hnone : lookupLast rest k = none :=
        lookupLast_eq_none_of_not_mem rest k (by rw [← hk]; exact hnd.1)
      simp [lookupLast, lookupA, hnone, hk]
    · simp only [lookupLast, lookupA, ih hnd.2, if_neg hk]
      cases lookupA rest k <;> simp

theorem lookupA_overlayLoop (l : FieldMap) (acc : FieldMap) (k : String) :
    lookupA (overlayLoop acc l) k =
      match overlayValue l k with
      | some v => some v
      | none => lookupA acc k := by
  induction l generalizing acc with
  | nil => simp [overlayLoop, overlayValue]
  | cons p rest ih =>
    obtain ⟨k₀, v₀⟩ := p
    show lookupA (overlayLoop (overlayStep acc (k₀, v₀)) rest) k = _
    rw [ih]
    cases hrest : overlayValue rest k with
    | some v'' => simp [overlayValue, hrest]
    | none =>
      simp only [overlayValue, hrest]
      by_cases hk : k₀ = k
      · subst hk
        cases v₀ with
        | str s =>
          by_cases hs : s = ""
          · simp [overlayStep, hs]
          · simp [overlayStep, hs, lookupA_insertA_self]
        | bool b => simp [overlayStep, lookupA_insertA_self]
        | num n => simp [overlayStep, lookupA_insertA_self]
      · have hne : k ≠ k₀ := fun hh => hk hh.symm
        cases v₀ with
        | str s =>
          by_cases hs : s = ""
          · simp [overlayStep, hs, hk]
          · simp [overlayStep, hs, hk, lookupA_insertA_ne acc k₀ k (Val.str s) hne]
        | bool b => simp [overlayStep, hk, lookupA_insertA_ne acc k₀ k (Val.bool b) hne]
        | num n => simp [overlayStep, hk, lookupA_insertA_ne acc k₀ k (Val.num n) hne]

example : extOf "999.json" = ".json" := by decide

example : extOf "donor.json" = ".json" := by decide

example : extOf "readme.txt" = ".txt" := by decide

example : extOf "noext" = "" := by decide

example : trimSuffix "999.json" ".json" = "999" := by decide

example : trimSuffix "donor.json" ".json" = "donor" := by decide

example : isNumericStr "999" = true := by decide

example : isNumericStr "donor" = false := by decide

example : isNumericStr "" = false := by decide

example : atoi "15" = some 15 := by decide

example : atoi "M5" = none := by decide

example : goSliceFrom "COM5" 3 = Except.ok "5" := rfl

example : goSliceFrom "C1" 3 = Except.error () := rfl

theorem overlayValue_eq_none_of_not_mem (l : FieldMap) (k : String)
    (h : k ∉ l.map Prod.fst) : overlayValue l k = none := by
  induction l with
  | nil => rfl
  | cons p rest ih =>
    obtain ⟨k₀, v₀⟩ := p
    simp only [List.map_cons, List.mem_cons, not_or] at h
    have hne : ¬(k₀ = k) := fun hh => h.1 hh.symm
    simp [overlayValue, ih h.2, hne]

theorem overlayValue_of_mem_nodup (l : FieldMap) (k : String) (v : Val)
    (hnd : (l.map Prod.fst).Nodup) (hmem : (k, v) ∈ l) :
    overlayValue l k =
      match v with
      | Val.str s => if s = "" then none else some v
      | _ => some v := by
  induction l with
  | nil => simp at hmem
  | cons p rest ih =>
    obtain ⟨k₀, v₀⟩ := p
    simp only [List.map_cons, List.nodup_cons] at hnd
    rcases List.mem_cons.mp hmem with heq | hr
    · injection heq with h1 h2
      subst h1
      subst h2
      have hnone : overlayValue rest k = none :=
        overlayValue_eq_none_of_not_mem rest k hnd.1
      cases v with
      | str s =>
        by_cases hs : s = "" <;> simp [overlayValue, hnone, hs]
      | bool b => simp [overlayValue, hnone]
      | num n => simp [overlayValue, hnone]
    · have hk : ¬(k₀ = k) := by
        intro hh
        rw [hh] at hnd
        exact hnd.1 (List.mem_map_of_mem Prod.fst hr)
      simp only [overlayValue]
      rw [ih hnd.2 hr]
      cases v with
      | str s => by_cases hs : s = "" <;> simp [hs, hk]
      | bool b => simp
      | num n => simp

theorem fiscal_keys_nodup (i : FiscalInfo) :
    ((fiscalInfoToMap i).map Prod.fst).Nodup := by
  by_cases hl : i.subscriptionInfo = "" <;> simp [fiscalInfoToMap, hl]

theorem fiscal_key_ne_time (i : FiscalInfo) (k : String) (v : Val)
    (hmem : (k, v) ∈ fiscalInfoToMap i) :
    k ≠ "current_time" ∧ k ≠ "v_time" := by
  have hk : k ∈ (fiscalInfoToMap i).map Prod.fst := List.mem_map_of_mem Prod.fst hmem
  constructor <;> rintro rfl <;> by_cases hl : i.subscriptionInfo = "" <;>
    simp [fiscalInfoToMap, hl] at hk

theorem lookupA_merged (i : FiscalInfo) (ws : FieldMap) (t k : String)
    (h1 : k ≠ "current_time") (h2 : k ≠ "v_time") :
    lookupA (saveNewMergedInfoMap i ws t) k =
      match overlayValue (fiscalInfoToMap i) k with
      | some v => some v
      | none => lookupLast ws k := by
  show lookupA (insertA (insertA (overlayLoop (copyLoop [] ws) (fiscalInfoToMap i))
      "current_time" (Val.str t)) "v_time" (Val.str t)) k = _
  rw [lookupA_insertA_ne _ "v_time" k _ h2, lookupA_insertA_ne _ "current_time" k _ h1,
      lookupA_overlayLoop, lookupA_copyLoop]
  cases overlayValue (fiscalInfoToMap i) k <;> cases lookupLast ws k <;> simp [lookupA]

/-- Claim C1: for every device the poller accepts (acceptance guarantees a
non-empty serial number) and for every donor field map, the merged file
map binds `serialNumber` to the device's freshly polled serial number,
even when the donor map carried a different `serialNumber` value. -/
theorem merged_serialNumber_eq_polled (c : Config) (b : PollBehavior)
    (pd : PolledDevice) (ws : FieldMap) (t : String)
    (hacc : pollOne c b = some pd) :
    lookupA (saveNewMergedInfoMap pd.info ws t) "serialNumber" =
      some (Val.str pd.info.serialNumber) := by
  have hser : pd.info.serialNumber ≠ "" := by
    unfold pollOne pollOneFull at hacc
    by_cases h1 : b.connectErr
    · simp [h1] at hacc
    · by_cases h2 : b.fetchErr
      · simp [h1, h2] at hacc
      · cases hf : b.fetchInfo with
        | none => simp [h1, h2, hf] at hacc
        | some info =>
          by_cases h3 : info.serialNumber = ""
          · simp [h1, h2, hf, h3] at hacc
          · simp [h1, h2, hf, h3] at hacc
            subst hacc
            exact h3
  have hmem : ("serialNumber", Val.str pd.info.serialNumber) ∈ fiscalInfoToMap pd.info := by
    simp [fiscalInfoToMap]
  rw [lookupA_merged pd.info ws t "serialNumber" (by decide) (by decide),
      overlayValue_of_mem_nodup _ _ _ (fiscal_keys_nodup pd.info) hmem]
  simp [hser]

/-- Witness for C1: the concrete accepted device with serial `123`
merged over a donor carrying the foreign serial `999`. -/
theorem merged_serialNumber_eq_polled_witness :
    lookupA (saveNewMergedInfoMap samplePolled.info sampleDonor sampleTime) "serialNumber" =
      some (Val.str samplePolled.info.serialNumber) :=
  merged_serialNumber_eq_polled sampleConfig sampleBehavior samplePolled sampleDonor
    sampleTime (by decide)

/-- Claim C2: in the merge, for every field name of the fresh fiscal
record: an empty-string fresh value never replaces the donor's value of
that name, while a fresh value other than the empty string always
replaces the donor's value of that name. -/
theorem merge_empty_preserves_nonempty_overwrites (i : FiscalInfo) (ws : FieldMap)
    (t k : String) (v : Val) (hnd : (ws.map Prod.fst).Nodup)
    (hmem : (k, v) ∈ fiscalInfoToMap i) :
    (v = Val.str "" → lookupA (saveNewMergedInfoMap i ws t) k = lookupA ws k)
    ∧ (v ≠ Val.str "" → lookupA (saveNewMergedInfoMap i ws t) k = some v) := by
  obtain ⟨h1, h2⟩ := fiscal_key_ne_time i k v hmem
  constructor
  · intro hv
    subst hv
    rw [lookupA_merged i ws t k h1 h2,
        overlayValue_of_mem_nodup _ _ _ (fiscal_keys_nodup i) hmem]
    simp [lookupLast_eq_lookupA_of_nodup ws hnd k]
  · intro hv
    rw [lookupA_merged i ws t k h1 h2,
        overlayValue_of_mem_nodup _ _ _ (fiscal_keys_nodup i) hmem]
    cases v with
    | str s =>
      have hs : ¬(s = "") := fun hh => hv (by rw [hh])
      simp [hs]
    | bool b => simp
    | num n => simp

/-- Witness for C2: the empty fresh `address` leaves the donor's
`Donor street` in place, while the non-empty fresh `modelName`
overwrites. -/
theorem merge_empty_preserves_nonempty_overwrites_witness :
    lookupA (saveNewMergedInfoMap sampleInfo sampleDonor sampleTime) "address" =
        some (Val.str "Donor street")
    ∧ lookupA (saveNewMergedInfoMap sampleInfo sampleDonor sampleTime) "modelName" =
        some (Val.str "SHTRIH-M-01F") := by
  constructor
  · have h := (merge_empty_preserves_nonempty_overwrites sampleInfo sampleDonor sampleTime
      "address" (Val.str "") (by decide) (by decide)).1 rfl
    rw [h]
    decide
  · exact (merge_empty_preserves_nonempty_overwrites sampleInfo sampleDonor sampleTime
      "modelName" (Val.str "SHTRIH-M-01F") (by decide) (by decide)).2 (by decide)

/-- Claim C10: the skip-empty rule suppresses only string-typed empty
fresh values: every non-string fresh field overwrites the donor — in
particular the booleans `attribute_excise` and `attribute_marked`
overwrite even when false. -/
theorem merge_nonstring_always_overwrites (i : FiscalInfo) (ws : FieldMap) (t : String) :
    lookupA (saveNewMergedInfoMap i ws t) "attribute_excise" =
        some (Val.bool i.attributeExcise)
    ∧ lookupA (saveNewMergedInfoMap i ws t) "attribute_marked" =
        some (Val.bool i.attributeMarked)
    ∧ (∀ k v, (k, v) ∈ fiscalInfoToMap i → (∀ s, v ≠ Val.str s) →
        lookupA (saveNewMergedInfoMap i ws t) k = some v) := by
  have hgen : ∀ k v, (k, v) ∈ fiscalInfoToMap i → (∀ s, v ≠ Val.str s) →
      lookupA (saveNewMergedInfoMap i ws t) k = some v := by
    intro k v hmem hv
    obtain ⟨h1, h2⟩ := fiscal_key_ne_time i k v hmem
    rw [lookupA_merged i ws t k h1 h2,
        overlayValue_of_mem_nodup _ _ _ (fiscal_keys_nodup i) hmem]
    cases v with
    | str s => exact absurd rfl (hv s)
    | bool b => simp
    | num n => simp
  refine ⟨?_, ?_, hgen⟩
  · exact hgen "attribute_excise" (Val.bool i.attributeExcise)
      (by simp [fiscalInfoToMap]) (fun s h => Val.noConfusion h)
  · exact hgen "attribute_marked" (Val.bool i.attributeMarked)
      (by simp [fiscalInfoToMap]) (fun s h => Val.noConfusion h)

/-- Witness for C10: the fresh `false` flags overwrite the donor's
`true` flags. -/
theorem merge_nonstring_always_overwrites_witness :
    lookupA (saveNewMergedInfoMap sampleInfo sampleDonor sampleTime) "attribute_excise" =
        some (Val.bool false)
    ∧ lookupA (saveNewMergedInfoMap sampleInfo sampleDonor sampleTime) "attribute_marked" =
        some (Val.bool false) :=
  ⟨(merge_nonstring_always_overwrites sampleInfo sampleDonor sampleTime).1,
   (merge_nonstring_always_overwrites sampleInfo sampleDonor sampleTime).2.1⟩

/-- Claim C3: for every output-directory listing the cleanup pass removes
exactly the `.json` files whose base name is not composed entirely of
decimal digits, independently of scan order; an all-digits `.json` file
is never removed; a missing output directory is not an error and removes
nothing. -/
theorem cleanup_removes_exactly_nonnumeric (entries entries' : List FsTree)
    (n : String) (hperm : entries.Perm entries') :
    ((n ∈ cleanupDateDirectory (some entries)) ↔
      ∃ c, FsTree.file n c ∈ entries ∧ extOf n = ".json"
        ∧ isNumericStr (trimSuffix n (extOf n)) = false)
    ∧ (cleanupDateDirectory (some entries)).Perm (cleanupDateDirectory (some entries'))
    ∧ (isNumericStr (trimSuffix n (extOf n)) = true →
        n ∉ cleanupDateDirectory (some entries))
    ∧ cleanupDateDirectory none = [] := by
  have hmemiff : (n ∈ cleanupDateDirectory (some entries)) ↔
      ∃ c, FsTree.file n c ∈ entries ∧ extOf n = ".json"
        ∧ isNumericStr (trimSuffix n (extOf n)) = false := by
    show (n ∈ cleanupRemoved entries) ↔ _
    rw [cleanupRemoved, List.mem_filterMap]
    constructor
    · rintro ⟨e, he, hf⟩
      cases e with
      | dir d ch => simp at hf
      | file name c =>
        by_cases hext : extOf name = ".json"
        · by_cases hnum : isNumericStr (trimSuffix name ".json")
          · simp [hext, hnum] at hf
          · simp [hext, hnum] at hf
            obtain ⟨rfl⟩ := hf
            refine ⟨c, he, hext, ?_⟩
            rw [hext]
            simpa using hnum
        · simp [hext] at hf
    · rintro ⟨c, hmem, hext, hnum⟩
      rw [hext] at hnum
      exact ⟨FsTree.file n c, hmem, by simp [hext, hnum]⟩
  refine ⟨hmemiff, hperm.filterMap _, ?_, rfl⟩
  intro htrue hmem
  obtain ⟨c, _, _, hfalse⟩ := hmemiff.mp hmem
  rw [htrue] at hfalse
  exact Bool.true_eq_false.mp hfalse

/-- Witness for C3 at the concrete listing: the canonical `999.json`
survives, the stray `donor.json` is among the removals. -/
theorem cleanup_removes_exactly_nonnumeric_witness :
    ("999.json" ∉ cleanupDateDirectory (some sampleDirListing))
    ∧ ("donor.json" ∈ cleanupDateDirectory (some sampleDirListing)) := by
  refine ⟨(cleanup_removes_exactly_nonnumeric sampleDirListing sampleDirListing
    "999.json" (List.Perm.refl _)).2.2.1 (by decide), ?_⟩
  exact (cleanup_removes_exactly_nonnumeric sampleDirListing sampleDirListing
    "donor.json" (List.Perm.refl _)).1.mpr
      ⟨some [("hostname", Val.str "DONOR-PC")], by simp [sampleDirListing], by decide, by decide⟩

/-- Counterexample to C5: the recursive deletion rule would delete
`sub/junk.json`, but the code's cleanup pass skips subdirectories and
removes only the top-level `donor.json`. -/
theorem cleanup_recursion_counterexample :
    "sub/junk.json" ∈ cleanupRemovedRecSpec sampleDirListing
    ∧ "sub/junk.json" ∉ cleanupRemoved sampleDirListing
    ∧ cleanupRemoved sampleDirListing = ["donor.json"]
    ∧ cleanupRemoved sampleDirListing ≠ cleanupRemovedRecSpec sampleDirListing := by
  have hmem : "sub/junk.json" ∈ cleanupRemovedRecSpec sampleDirListing := by
    simp +decide [cleanupRemovedRecSpec, sampleDirListing]
  refine ⟨hmem, by decide, rfl, ?_⟩
  intro h
  have h1 : "sub/junk.json" ∈ cleanupRemoved sampleDirListing := by
    rw [h]; exact hmem
  revert h1
  decide

/-- Claim C5 (amended): during cleanup, subdirectory entries of the
output directory are skipped entirely (not recursed into); the deletion
rule applies only to top-level `.json` files, non-`.json` files are
ignored, and every removed path names a top-level file of the output
directory. -/
theorem cleanup_skips_subdirectories (entries children : List FsTree)
    (d n : String) (c : Option FieldMap) :
    cleanupRemoved (FsTree.dir d children :: entries) = cleanupRemoved entries
    ∧ (extOf n ≠ ".json" →
        cleanupRemoved (FsTree.file n c :: entries) = cleanupRemoved entries)
    ∧ (∀ p ∈ cleanupRemoved entries, ∃ c', FsTree.file p c' ∈ entries) := by
  refine ⟨by simp [cleanupRemoved], fun hext => by simp [cleanupRemoved, hext], ?_⟩
  intro p hp
  rw [cleanupRemoved, List.mem_filterMap] at hp
  obtain ⟨e, he, hf⟩ := hp
  cases e with
  | dir d' ch => simp at hf
  | file name c' =>
    by_cases hext : extOf name = ".json"
    · by_cases hnum : isNumericStr (trimSuffix name ".json")
      · simp [hext, hnum] at hf
      · simp [hext, hnum] at hf
        obtain ⟨rfl⟩ := hf
        exact ⟨c', he⟩
    · simp [hext] at hf

/-- Witness for the amended C5: a subdirectory full of stray json and a
non-json file both contribute nothing to the removal list. -/
theorem cleanup_skips_subdirectories_witness :
    cleanupRemoved (FsTree.dir "sub" [FsTree.file "junk.json" none]
        :: [FsTree.file "donor.json" none]) =
      cleanupRemoved [FsTree.file "donor.json" none]
    ∧ cleanupRemoved (FsTree.file "readme.txt" none :: [FsTree.file "donor.json" none]) =
      cleanupRemoved [FsTree.file "donor.json" none] := by
  have h := cleanup_skips_subdirectories [FsTree.file "donor.json" none]
    [FsTree.file "junk.json" none] "sub" "readme.txt" none
  exact ⟨h.1, h.2.1 (by decide)⟩

/-- Claim C6: within one run the donor scan reads the output directory
before any cleanup deletion: on a listing holding canonical `999.json`
and non-numeric `donor.json`, the donor data of `donor.json` is obtained
for this run's merge even though cleanup removes `donor.json`, and
`999.json` is left untouched. -/
theorem donor_read_before_cleanup :
    (∀ entries, (filePhase entries).1 = findSourceWorkstationData entries)
    ∧ (filePhase sampleDirListing).1 = some [("hostname", Val.str "DONOR-PC")]
    ∧ "donor.json" ∈ cleanupDateDirectory (some sampleDirListing)
    ∧ "999.json" ∉ cleanupDateDirectory (some sampleDirListing)
    ∧ (filePhase sampleDirListing).2 =
        [FsTree.file "999.json" (some [("serialNumber", Val.str "999")]),
         FsTree.file "readme.txt" none,
         FsTree.dir "sub" [FsTree.file "junk.json" none]] :=
  ⟨fun _ => rfl, rfl, by decide, by decide, rfl⟩

theorem exists_tail_of_head_false {α : Type} {P : α → Bool} {e : α} {rest : List α}
    (h : ∃ x ∈ e :: rest, P x = true) (he : P e = false) :
    ∃ x ∈ rest, P x = true := by
  obtain ⟨x, hx, hpx⟩ := h
  rcases List.mem_cons.mp hx with rfl | hr
  · rw [he] at hpx
    exact absurd hpx (by simp)
  · exact ⟨x, hr, hpx⟩

theorem findSourceLoop_finds_ideal (entries : List FsTree) :
    ∀ fc, (∃ e ∈ entries, isIdealEntry e = true) →
      ∃ m, findSourceLoop entries fc = some m ∧ isIdealMap m = true := by
  induction entries with
  | nil =>
    intro fc h
    simp at h
  | cons e rest ih =>
    intro fc h
    cases e with
    | dir d ch =>
      have h' := exists_tail_of_head_false h (by simp [isIdealEntry])
      simpa [findSourceLoop] using ih fc h'
    | file name c =>
      by_cases hext : extOf name = ".json"
      · cases c with
        | none =>
          have h' := exists_tail_of_head_false h (by simp [isIdealEntry])
          simpa [findSourceLoop, hext] using ih fc h'
        | some m =>
          by_cases hh : hasKey m "hostname"
          · by_cases hm : hasKey m "modelName"
            · have h' := exists_tail_of_head_false h
                (by simp [isIdealEntry, isIdealMap, hm])
              cases fc with
              | none => simpa [findSourceLoop, hext, hh, hm] using ih (some m) h'
              | some fc' => simpa [findSourceLoop, hext, hh, hm] using ih (some fc') h'
            · refine ⟨m, by simp [findSourceLoop, hext, hh, hm], ?_⟩
              simp [isIdealMap, hh, hm]
          · have h' := exists_tail_of_head_false h
              (by simp [isIdealEntry, isIdealMap, hh])
            simpa [findSourceLoop, hext, hh] using ih fc h'
      · have h' := exists_tail_of_head_false h (by cases c <;> simp [isIdealEntry, hext])
        simpa [findSourceLoop, hext] using ih fc h'

theorem findSourceLoop_no_ideal (entries : List FsTree) :
    ∀ fc, (∀ e ∈ entries, isIdealEntry e = false) →
      findSourceLoop entries fc =
        match fc with
        | some c => some c
        | none => firstCandidateContent entries := by
  induction entries with
  | nil =>
    intro fc h
    cases fc <;> simp [findSourceLoop, firstCandidateContent]
  | cons e rest ih =>
    intro fc h
    have hhead := h e (List.mem_cons_self e rest)
    have htail : ∀ e' ∈ rest, isIdealEntry e' = false :=
      fun e' he' => h e' (List.mem_cons_of_mem e he')
    cases e with
    | dir d ch =>
      simpa [findSourceLoop, firstCandidateContent] using ih fc htail
    | file name c =>
      by_cases hext : extOf name = ".json"
      · cases c with
        | none =>
          simpa [findSourceLoop, firstCandidateContent, hext] using ih fc htail
        | some m =>
          by_cases hh : hasKey m "hostname"
          · by_cases hm : hasKey m "modelName"
            · cases fc with
              | none =>
                have := ih (some m) htail
                simpa [findSourceLoop, firstCandidateContent, hext, hh, hm,
                  isCandidateMap] using this
              | some fc' =>
                have := ih (some fc') htail
                simpa [findSourceLoop, firstCandidateContent, hext, hh, hm,
                  isCandidateMap] using this
            · simp [isIdealEntry, isIdealMap, hext, hh, hm] at hhead
          · simpa [findSourceLoop, firstCandidateContent, hext, hh, isCandidateMap]
              using ih fc htail
      · cases c <;> simpa [findSourceLoop, firstCandidateContent, hext] using ih fc htail

theorem findSourceLoop_no_hostname (entries : List FsTree) :
    ∀ fc, (∀ e ∈ entries, hasHostnameEntry e = false) →
      findSourceLoop entries fc = fc := by
  induction entries with
  | nil => intro fc h; rfl
  | cons e rest ih =>
    intro fc h
    have hhead := h e (List.mem_cons_self e rest)
    have htail : ∀ e' ∈ rest, hasHostnameEntry e' = false :=
      fun e' he' => h e' (List.mem_cons_of_mem e he')
    cases e with
    | dir d ch => simpa [findSourceLoop] using ih fc htail
    | file name c =>
      by_cases hext : extOf name = ".json"
      · cases c with
        | none => simpa [findSourceLoop, hext] using ih fc htail
        | some m =>
          have hh : hasKey m "hostname" = false := by
            simpa [hasHostnameEntry, hext] using hhead
          simpa [findSourceLoop, hext, hh] using ih fc htail
      · simpa [findSourceLoop, hext] using ih fc htail

/-- Claim C4: for every directory listing, if an ideal donor file (has
`hostname`, lacks `modelName`) exists anywhere in the listing then the
resolver returns ideal-donor content, regardless of position; when no
ideal donor exists the resolver returns the content of the *first*
candidate file (has both `hostname` and `modelName`); and when no file
carries `hostname` the resolver returns the distinguished empty result,
upon which the reconciler falls back to a minimal donor holding only the
local machine's hostname. -/
theorem donor_selection_spec (entries : List FsTree) (host : String) :
    ((∃ e ∈ entries, isIdealEntry e = true) →
      ∃ m, findSourceWorkstationData entries = some m ∧ isIdealMap m = true)
    ∧ ((∀ e ∈ entries, isIdealEntry e = false) →
      findSourceWorkstationData entries = firstCandidateContent entries)
    ∧ ((∀ e ∈ entries, hasHostnameEntry e = false) →
      findSourceWorkstationData entries = none
      ∧ wsDataToUse (findSourceWorkstationData entries) host =
          [("hostname", Val.str host)]) := by
  refine ⟨fun h => findSourceLoop_finds_ideal entries none h,
          fun h => findSourceLoop_no_ideal entries none h,
          fun h => ?_⟩
  have hnone : findSourceWorkstationData entries = none :=
    findSourceLoop_no_hostname entries none h
  exact ⟨hnone, by rw [hnone]; rfl⟩

/-- Witness for C4: an ideal donor listed *after* a candidate still wins;
a candidate-only listing yields its first candidate; a hostname-free
listing yields the empty result. -/
theorem donor_selection_spec_witness :
    (∃ m, findSourceWorkstationData donorScanListing = some m ∧ isIdealMap m = true)
    ∧ findSourceWorkstationData candOnlyListing = firstCandidateContent candOnlyListing
    ∧ findSourceWorkstationData noHostListing = none := by
  refine ⟨(donor_selection_spec donorScanListing "LOCAL").1 ?_,
          (donor_selection_spec candOnlyListing "LOCAL").2.1 ?_,
          ((donor_selection_spec noHostListing "LOCAL").2.2 ?_).1⟩
  · exact ⟨FsTree.file "ideal.json" (some [("hostname", Val.str "PC-2")]),
      by simp [donorScanListing], by decide⟩
  · intro e he
    rcases List.mem_cons.mp he with rfl | he'
    · decide
    · rcases List.mem_cons.mp he' with rfl | he''
      · decide
      · simp at he''
  · intro e he
    rcases List.mem_cons.mp he with rfl | he'
    · decide
    · rcases List.mem_cons.mp he' with rfl | he''
      · decide
      · simp at he''

theorem pollFold_acc (l : List (Config × PollBehavior)) :
    ∀ acc, l.foldl pollStep acc = acc ++ l.foldl pollStep [] := by
  induction l with
  | nil => intro acc; simp
  | cons cb rest ih =>
    intro acc
    rw [List.foldl_cons, List.foldl_cons, ih (pollStep acc cb), ih (pollStep [] cb)]
    cases h : pollOne cb.1 cb.2 <;> simp [pollStep, h]

theorem pollOne_eq_some_iff (c : Config) (b : PollBehavior) (pd : PolledDevice) :
    pollOne c b = some pd ↔
      (b.connectErr = false ∧ b.fetchErr = false ∧
        ∃ info, b.fetchInfo = some info ∧ info.serialNumber ≠ ""
          ∧ pd = { config := c, info := info }) := by
  unfold pollOne pollOneFull
  by_cases h1 : b.connectErr
  · simp [h1]
  · by_cases h2 : b.fetchErr
    · simp [h1, h2]
    · cases hf : b.fetchInfo with
      | none => simp [h1, h2, hf]
      | some info =>
        by_cases h3 : info.serialNumber = ""
        · simp [h1, h2, hf, h3]
        · simp [h1, h2, hf, h3, eq_comm]
          exact fun _ hh => h3 hh.symm

/-- Claim C7: the poller's result batch contains exactly the descriptors
whose connect succeeded, fetch succeeded and record was non-nil with a
non-empty serial number; one descriptor's failure never blocks the rest
(the batch result is the concatenation of the sub-batch results); and
disconnect is attempted exactly after every successful connect,
regardless of the fetch outcome. -/
theorem poller_filters_and_disconnects (l₁ l₂ : List (Config × PollBehavior))
    (c : Config) (b : PollBehavior) :
    pollDevices (l₁ ++ l₂) = pollDevices l₁ ++ pollDevices l₂
    ∧ ((∃ pd, pollOne c b = some pd ∧ pd.config = c ∧ b.fetchInfo = some pd.info) ↔
        (b.connectErr = false ∧ b.fetchErr = false ∧
          ∃ info, b.fetchInfo = some info ∧ info.serialNumber ≠ ""))
    ∧ (pollOneFull c b).2 = !b.connectErr := by
  refine ⟨?_, ?_, ?_⟩
  · show (l₁ ++ l₂).foldl pollStep [] = _
    rw [List.foldl_append, pollFold_acc l₂ (l₁.foldl pollStep [])]
    rfl
  · constructor
    · rintro ⟨pd, hsome, hc, hinfo⟩
      obtain ⟨h1, h2, info, hf, hser, hpd⟩ := (pollOne_eq_some_iff c b pd).mp hsome
      exact ⟨h1, h2, info, hf, hser⟩
    · rintro ⟨h1, h2, info, hf, hser⟩
      refine ⟨{ config := c, info := info }, ?_, rfl, hf⟩
      exact (pollOne_eq_some_iff c b _).mpr ⟨h1, h2, info, hf, hser, rfl⟩
  · by_cases h1 : b.connectErr
    · simp [pollOneFull, h1]
    · by_cases h2 : b.fetchErr
      · simp [pollOneFull, h1, h2]
      · cases hf : b.fetchInfo with
        | none => simp [pollOneFull, h1, h2, hf]
        | some info =>
          by_cases h3 : info.serialNumber = "" <;> simp [pollOneFull, h1, h2, hf, h3]

/-- Claim C8 (code bug): `convertSettingsToConfigs` evaluates
`s.ComPort[3:]` before any validation, so a serial entry whose
`com_port` is shorter than three bytes raises a slice-bounds panic and
terminates the process instead of being logged and skipped; the panic is
modelled as `Except.error`. -/
theorem convertSettings_panics_on_short_comPort :
    convertSettingsToConfigs
      [{ typeConnect := 0, comPort := "C1", comBaudrate := "115200",
         ip := "", ipPort := "" }] = Except.error () := rfl

/-- Claim C9: the merge-and-persist step never mutates the donor map it
is given: across a whole batch the donor map threaded through the loop
is returned unchanged, and every device's file is the merge of that
device against the *original* donor content. -/
theorem merge_does_not_mutate_donor (devices : List FiscalInfo) (ws : FieldMap)
    (t : String) :
    (mergeLoop devices ws t).2 = ws
    ∧ (mergeLoop devices ws t).1 =
        devices.map (fun d => (fileNameOf d, saveNewMergedInfoMap d ws t)) := by
  induction devices with
  | nil => exact ⟨rfl, rfl⟩
  | cons d rest ih =>
    refine ⟨ih.1, ?_⟩
    show (fileNameOf d, saveNewMergedInfoMap d ws t) :: (mergeLoop rest ws t).1 = _
    rw [List.map_cons, ih.2]
